import Mathlib

/-!
# Verification of the go-spot structural interface-satisfaction engine

Shallow embedding of the analysis engine of the `go-spot` repository:

* the Go extractor/resolver (`goanalyzer` main package: `analyze`,
  `processInterface`, `processStruct`, `extractParams`,
  `extractReturnTypes`, `makeRelativePath`), and
* the TypeScript portable matcher/resolver (`src/goAnalyzer.ts`:
  `methodsMatch`, `implementsInterface`, the post-processing loop of
  `analyzeWorkspace`).

Strings of the host languages are Lean `String`s; Go strings used as
file paths are modelled as `List Char` so that the path arithmetic of
`makeRelativePath` is open to proof.  The Go type-checker facility
(`types.Implements` together with the scope lookup guarding it) is an
external collaborator and enters the embedding as an oracle parameter
`impl : String → String → Bool` keyed by struct and interface name.
-/

/-- `Position` record (Go struct / TS interface): path and 1-based line. -/
structure Position where
  path : String
  line : Nat
deriving DecidableEq

/-- `Declaration` record: a named reference to another declaration site. -/
structure Declaration where
  name : String
  position : Position
deriving DecidableEq

/-- `ParamInfo` record: parameter name and rendered type string. -/
structure ParamInfo where
  name : String
  type : String
deriving DecidableEq

/-- `MethodInfo` record: method name, position, parameters, rendered
return types, and the `implementedFrom` cross-links filled in by the
resolver.  The TS guard `if (!method.implementedFrom)` only replaces a
null field by `[]`; the embedding keeps the field as an always-present
list. -/
structure MethodInfo where
  name : String
  position : Position
  parameters : List ParamInfo
  returnTypes : List String
  implementedFrom : List Declaration
deriving DecidableEq

/-- `InterfaceInfo` record: interface name, position and methods. -/
structure InterfaceInfo where
  name : String
  position : Position
  methods : List MethodInfo
deriving DecidableEq

/-- `StructInfo` record: struct name, position, canonical methods,
embedded type strings and the `implementedInterfaces` cross-links. -/
structure StructInfo where
  name : String
  position : Position
  methods : List MethodInfo
  embeddedTypes : List String
  implementedInterfaces : List Declaration
deriving DecidableEq

/-- `AnalysisResult` / `GoAnalysisResult`: the terminal result model. -/
structure AnalysisResult where
  interfaces : List InterfaceInfo
  structs : List StructInfo
deriving DecidableEq

/-! ## TypeScript portable signature matcher (`src/goAnalyzer.ts`) -/

/-- The wildcard test of `methodsMatch`:
`interfaceParam.type.length === 1 && interfaceParam.type.match(/^[A-Z]$/)`. -/
def isTypeParam (t : String) : Bool :=
  t.length == 1 &&
    (match t.data with
     | [c] => decide ('A' ≤ c) && decide (c ≤ 'Z')
     | _ => false)

/-- `methodsMatch(structMethod, interfaceMethod)` from `goAnalyzer.ts`:
name, parameter count and return count must agree, then positionwise
type-string equality with the single-uppercase-letter wildcard on the
interface side.  The TS early-return loops over equal-length arrays are
rendered as `List.all` over the positionwise `zip`. -/
def methodsMatch (structMethod interfaceMethod : MethodInfo) : Bool :=
  structMethod.name == interfaceMethod.name &&
  structMethod.parameters.length == interfaceMethod.parameters.length &&
  structMethod.returnTypes.length == interfaceMethod.returnTypes.length &&
  (structMethod.parameters.zip interfaceMethod.parameters).all
    (fun pq => isTypeParam pq.2.type || pq.1.type == pq.2.type) &&
  (structMethod.returnTypes.zip interfaceMethod.returnTypes).all
    (fun pq => isTypeParam pq.2 || pq.1 == pq.2)

/-- `implementsInterface(struct, iface)` from `goAnalyzer.ts`: every
interface method must have a `find`-matching struct method. -/
def implementsInterface (struct : StructInfo) (iface : InterfaceInfo) : Bool :=
  iface.methods.all (fun interfaceMethod =>
    (struct.methods.find? (fun structMethod =>
      methodsMatch structMethod interfaceMethod)).isSome)

/-! ## TypeScript post-processing resolver (`analyzeWorkspace`) -/

/-- The body of the `for (const struct of result.structs)` loop of
`analyzeWorkspace`: reset `implementedInterfaces` to `[]`, then for each
interface that the struct implements, push its `Declaration` and push a
`Declaration{iface.name + "." + im.name, iface.position}` onto the
`implementedFrom` of every struct method with a `methodsMatch`-matching
interface method `im` (first match via `Array.find`).  `implementedFrom`
is not reset. -/
def resolveStruct (interfaces : List InterfaceInfo) (struct : StructInfo) :
    StructInfo :=
  interfaces.foldl (fun s iface =>
    if implementsInterface s iface then
      { s with
        implementedInterfaces :=
          s.implementedInterfaces ++ [⟨iface.name, iface.position⟩],
        methods := s.methods.map (fun m =>
          match iface.methods.find? (fun im => methodsMatch m im) with
          | some im =>
              { m with implementedFrom := m.implementedFrom ++
                  [⟨iface.name ++ "." ++ im.name, iface.position⟩] }
          | none => m) }
    else s) { struct with implementedInterfaces := [] }

/-- The whole post-processing pass of `analyzeWorkspace` over a parsed
`GoAnalysisResult`. -/
def resolveResult (result : AnalysisResult) : AnalysisResult :=
  { result with structs := result.structs.map (resolveStruct result.interfaces) }

/-! ## Validation of the analyzer's serialized output (`analyzeWorkspace`) -/

/-- Shape of one field of the parsed JSON object: absent, present but
not an array, or an array of records. -/
inductive JsonField (α : Type) where
  | missing : JsonField α
  | notArray : JsonField α
  | array : List α → JsonField α
deriving DecidableEq

/-- `Array.isArray` on a parsed field. -/
def isArrayField {α : Type} : JsonField α → Bool
  | .array _ => true
  | _ => false

/-- The parsed analyzer output before validation. -/
structure RawAnalysisResult where
  interfaces : JsonField InterfaceInfo
  structs : JsonField StructInfo

/-- The tail of `analyzeWorkspace` after `JSON.parse`: reject unless
both `result.interfaces` and `result.structs` are arrays
(`Array.isArray`), otherwise run the post-processing resolver. -/
def analyzeOutput (result : RawAnalysisResult) : Except String AnalysisResult :=
  match result.interfaces, result.structs with
  | .array is, .array ss => .ok (resolveResult ⟨is, ss⟩)
  | _, _ => .error "Invalid analyzer output: missing interfaces or structs arrays"

/-! ## Go extractor and resolver (`goanalyzer` main package) -/

/-- One step of `processMethodSet` in `processStruct`: skip the method
when one of that name already exists, otherwise append it. -/
def addMethod (methods : List MethodInfo) (m : MethodInfo) : List MethodInfo :=
  if methods.any (fun existingMethod => existingMethod.name == m.name) then
    methods
  else methods ++ [m]

/-- `processMethodSet` of `processStruct`: fold the method set into the
accumulated `info.Methods`. -/
def processMethodSet (methods : List MethodInfo) (ms : List MethodInfo) :
    List MethodInfo :=
  ms.foldl addMethod methods

/-- Input of `processStruct` as extracted from the type-checked package:
name, position, the value-receiver method set `types.NewMethodSet(named)`,
the pointer-receiver method set `types.NewMethodSet(types.NewPointer(named))`,
and the embedded (anonymous) field type strings. -/
structure StructDecl where
  name : String
  position : Position
  valueMethods : List MethodInfo
  ptrMethods : List MethodInfo
  embeddedTypes : List String
deriving DecidableEq

/-- `processStruct(obj, pkg, allInterfaces)`: build the canonical method
list from the value-receiver set then the pointer-receiver set, then for
each interface of `allInterfaces` accepted by the type-checker oracle
(`types.Implements` on the value or pointer type, guarded by the scope
lookup), append a `Declaration{iface.Name, iface.Position}` to
`ImplementedInterfaces` and, for every struct method and every interface
method of equal name, append
`Declaration{iface.Name + "." + ifaceMethod.Name, ifaceMethod.Position}`
to the struct method's `ImplementedFrom`. -/
def processStruct (impl : String → String → Bool) (decl : StructDecl)
    (allInterfaces : List InterfaceInfo) : StructInfo :=
  let methods := processMethodSet (processMethodSet [] decl.valueMethods)
    decl.ptrMethods
  allInterfaces.foldl (fun info iface =>
    if impl decl.name iface.name then
      { info with
        implementedInterfaces :=
          info.implementedInterfaces ++ [⟨iface.name, iface.position⟩],
        methods := info.methods.map (fun m =>
          { m with implementedFrom := m.implementedFrom ++
              iface.methods.filterMap (fun ifaceMethod =>
                if m.name == ifaceMethod.name then
                  some ⟨iface.name ++ "." ++ ifaceMethod.name,
                    ifaceMethod.position⟩
                else none) }) }
    else info)
    ⟨decl.name, decl.position, methods, decl.embeddedTypes, []⟩

/-- One named declaration met while walking a package scope: a type
whose underlying form is an interface (carrying the `InterfaceInfo`
that `processInterface` extracts from it, one method per
`iface.Method(i)`), or one whose underlying form is a struct. -/
inductive GoDecl where
  | ifaceD : InterfaceInfo → GoDecl
  | structD : StructDecl → GoDecl
deriving DecidableEq

/-- One loaded package: its `pkg.Errors` and the declarations of its
scope in `scope.Names()` order. -/
structure GoPackage where
  errors : List String
  decls : List GoDecl
deriving DecidableEq

/-- The body of the `switch` in `analyze`'s scope walk: an interface is
appended when it has at least one method (`t.NumMethods() > 0`); a
struct is resolved by `processStruct` against `result.Interfaces` as
collected so far, then appended. -/
def processDecl (impl : String → String → Bool) (acc : AnalysisResult) :
    GoDecl → AnalysisResult
  | .ifaceD iface =>
      if iface.methods.length > 0 then
        { acc with interfaces := acc.interfaces ++ [iface] }
      else acc
  | .structD decl =>
      { acc with structs := acc.structs ++ [processStruct impl decl acc.interfaces] }

/-- The package loop of `analyze`: a package with errors is skipped,
each of its errors reported via `log.Printf`; an error-free package has
its scope walked by `processDecl`.  Returns the `AnalysisResult`
together with the logged diagnostics. -/
def analyzePkgs (impl : String → String → Bool) (acc : AnalysisResult) :
    List GoPackage → AnalysisResult × List String
  | [] => (acc, [])
  | pkg :: rest =>
      if pkg.errors.isEmpty then
        analyzePkgs impl (pkg.decls.foldl (processDecl impl) acc) rest
      else
        let r := analyzePkgs impl acc rest
        (r.1, pkg.errors ++ r.2)

/-- `analyze(rootPath)`: start from empty `Interfaces`/`Structs` and
walk every loaded package. -/
def analyze (impl : String → String → Bool) (pkgs : List GoPackage) :
    AnalysisResult × List String :=
  analyzePkgs impl ⟨[], []⟩ pkgs

/-! ## `makeRelativePath` (`goanalyzer` main package) -/

/-- `filepath.ToSlash`: backslashes become forward slashes. -/
def toSlash (path : List Char) : List Char :=
  path.map (fun c => if c = '\\' then '/' else c)

/-- `makeRelativePath(path)`: convert to forward slashes, split on `/`
(`strings.Split`), and when more than two components remain keep the
last three joined by `/` (`strings.Join(parts[len(parts)-3:], "/")`). -/
def makeRelativePath (path : List Char) : List Char :=
  if ((toSlash path).splitOn '/').length > 2 then
    ['/'].intercalate (((toSlash path).splitOn '/').drop
      (((toSlash path).splitOn '/').length - 3))
  else toSlash path

/-! ## Sample data -/

/-- Sample interface method `Get(key: K) -> V` (wildcard types). -/
def getKV : MethodInfo :=
  ⟨"Get", ⟨"a/b.go", 1⟩, [⟨"key", "K"⟩], ["V"], []⟩

/-- Sample struct method `Get(key: string) -> int`. -/
def getStringInt : MethodInfo :=
  ⟨"Get", ⟨"a/c.go", 2⟩, [⟨"key", "string"⟩], ["int"], []⟩

/-- Sample interface method `Get(key: string) -> int`. -/
def getStringIntIface : MethodInfo :=
  ⟨"Get", ⟨"a/b.go", 3⟩, [⟨"key", "string"⟩], ["int"], []⟩

/-- Sample struct method `Get(key: int) -> int`. -/
def getIntInt : MethodInfo :=
  ⟨"Get", ⟨"a/c.go", 4⟩, [⟨"key", "int"⟩], ["int"], []⟩

/-- Position of the sample `Shape` interface declaration. -/
def shapePos : Position := ⟨"internal/shapes/shapes.go", 3⟩

/-- Position of the sample `Shape.Area` interface method declaration:
distinct from the interface's own position. -/
def areaIfacePos : Position := ⟨"internal/shapes/shapes.go", 4⟩

/-- Sample interface method `Area() -> float64` of `Shape`. -/
def areaIfaceMethod : MethodInfo := ⟨"Area", areaIfacePos, [], ["float64"], []⟩

/-- Sample interface `Shape { Area() -> float64 }`. -/
def shapeIface : InterfaceInfo := ⟨"Shape", shapePos, [areaIfaceMethod]⟩

/-- Sample struct method `Area() -> float64` of `Circle`. -/
def areaMethod : MethodInfo :=
  ⟨"Area", ⟨"internal/shapes/circle.go", 8⟩, [], ["float64"], []⟩

/-- Sample struct `Circle` with the single method `Area`. -/
def circleStruct : StructInfo :=
  ⟨"Circle", ⟨"internal/shapes/circle.go", 4⟩, [areaMethod], [], []⟩

/-- Sample serialized analysis result: `Shape` and `Circle`, before any
resolution. -/
def sampleResult : AnalysisResult := ⟨[shapeIface], [circleStruct]⟩

/-- `Circle` as the Go extractor meets it: `Area` in both receiver sets. -/
def circleDecl : StructDecl :=
  ⟨"Circle", ⟨"internal/shapes/circle.go", 4⟩, [areaMethod], [areaMethod], []⟩

/-- Type-checker oracle for the sample corpus: `Circle` satisfies
`Shape` and nothing else. -/
def circleShapeOracle : String → String → Bool :=
  fun s i => s == "Circle" && i == "Shape"

/-- Oracle declaring no implementation at all. -/
def implNone : String → String → Bool := fun _ _ => false

/-- Value-receiver method `Name() -> string`. -/
def nameValueMethod : MethodInfo := ⟨"Name", ⟨"m/a.go", 5⟩, [], ["string"], []⟩

/-- Pointer-receiver method `Name() -> string` (distinct position, so
the record differs from the value-receiver one). -/
def namePtrMethod : MethodInfo := ⟨"Name", ⟨"m/a.go", 9⟩, [], ["string"], []⟩

/-- Pointer-receiver method `SetName(n: string) -> void`. -/
def setNameMethod : MethodInfo :=
  ⟨"SetName", ⟨"m/a.go", 13⟩, [⟨"n", "string"⟩], [], []⟩

/-- A package whose type-checking failed: it carries an error and a
declaration that must be skipped. -/
def badPkg : GoPackage := ⟨["sample: undefined identifier"], [.ifaceD shapeIface]⟩

/-- An error-free package declaring `Shape` and `Circle`. -/
def goodPkg : GoPackage := ⟨[], [.ifaceD shapeIface, .structD circleDecl]⟩

/-! ## Helper lemmas -/

/-- `find?` returns the earliest element satisfying the predicate. -/
theorem find?_eq_some_split {α : Type} (p : α → Bool) :
    ∀ (l : List α) (a : α), l.find? p = some a →
      p a = true ∧ ∃ l1 l2, l = l1 ++ a :: l2 ∧ ∀ x ∈ l1, p x = false := by
  intro l
  induction l with
  | nil => intro a h; simp [List.find?] at h
  | cons x xs ih =>
      intro a h
      cases hx : p x with
      | true =>
          rw [List.find?_cons_of_pos _ hx] at h
          obtain rfl : x = a := by injection h
          exact ⟨hx, [], xs, rfl, by intro y hy; simp at hy⟩
      | false =>
          rw [List.find?_cons_of_neg _ (by simp [hx])] at h
          obtain ⟨hp, l1, l2, heq, hall⟩ := ih a h
          refine ⟨hp, x :: l1, l2, by rw [heq, List.cons_append], ?_⟩
          intro y hy
          rcases List.mem_cons.mp hy with rfl | hy'
          · exact hx
          · exact hall y hy'

/-- The wildcard test accepts exactly the one-character strings whose
character is an upper-case ASCII letter. -/
theorem isTypeParam_iff (t : String) :
    isTypeParam t = true ↔ ∃ c, t.data = [c] ∧ 'A' ≤ c ∧ c ≤ 'Z' := by
  unfold isTypeParam
  cases h : t.data with
  | nil =>
      simp [String.length, h]
  | cons c tl =>
      cases tl with
      | nil => simp [String.length, h]
      | cons d tl' => simp [String.length, h]

/-- Pieces produced by `splitOnP` contain no element satisfying the
predicate. -/
theorem splitOnP_forall_not {α : Type} (p : α → Bool) :
    ∀ (xs : List α), ∀ l ∈ xs.splitOnP p, ∀ y ∈ l, p y = false := by
  intro xs
  induction xs with
  | nil =>
      intro l hl y hy
      simp only [List.splitOnP_nil, List.mem_singleton] at hl
      subst hl
      simp at hy
  | cons x xs ih =>
      intro l hl y hy
      rw [List.splitOnP_cons] at hl
      by_cases hx : p x = true
      · rw [if_pos hx] at hl
        rcases List.mem_cons.mp hl with rfl | hl'
        · simp at hy
        · exact ih l hl' y hy
      · rw [if_neg hx] at hl
        cases hsp : xs.splitOnP p with
        | nil => exact absurd hsp (List.splitOnP_ne_nil p xs)
        | cons h t =>
            rw [hsp] at hl
            simp only [List.modifyHead] at hl
            rcases List.mem_cons.mp hl with rfl | hl'
            · rcases List.mem_cons.mp hy with rfl | hy'
              · exact Bool.not_eq_true _ ▸ hx
              · exact ih h (by rw [hsp]; exact List.mem_cons_self h t) y hy'
            · exact ih l (by rw [hsp]; exact List.mem_cons_of_mem h hl') y hy

/-- Pieces produced by `splitOn` do not contain the separator. -/
theorem not_mem_of_mem_splitOn {α : Type} [DecidableEq α] (c : α)
    (xs : List α) (l : List α) (hl : l ∈ xs.splitOn c) : c ∉ l := by
  intro hc
  have := splitOnP_forall_not (· == c) xs l hl c hc
  simp at this

/-- `addMethod` preserves the absence of duplicate names. -/
theorem nodup_names_addMethod (acc : List MethodInfo) (m : MethodInfo)
    (h : (acc.map (fun x => x.name)).Nodup) :
    ((addMethod acc m).map (fun x => x.name)).Nodup := by
  unfold addMethod
  by_cases hany : acc.any (fun existingMethod => existingMethod.name == m.name) = true
  · rw [if_pos hany]; exact h
  · rw [if_neg hany]
    rw [List.map_append, List.nodup_append]
    refine ⟨h, by simp, ?_⟩
    intro a ha hb
    simp only [List.map_cons, List.map_nil, List.mem_singleton] at hb
    subst hb
    rw [List.any_eq_true] at hany
    push_neg at hany
    obtain ⟨x, hx, hxa⟩ := List.mem_map.mp ha
    exact hany x hx (by simp [hxa])

/-- Folding `addMethod` over any method list preserves name dedup. -/
theorem nodup_names_foldl_addMethod :
    ∀ (ms acc : List MethodInfo), ((acc.map (fun x => x.name)).Nodup) →
      (((ms.foldl addMethod acc).map (fun x => x.name)).Nodup) := by
  intro ms
  induction ms with
  | nil => intro acc h; exact h
  | cons m ms ih =>
      intro acc h
      exact ih (addMethod acc m) (nodup_names_addMethod acc m h)

/-- Skipping an erroring package: the result component of the package
loop ignores it and the diagnostics keep its errors. -/
theorem analyzePkgs_skip (impl : String → String → Bool) (pkg : GoPackage)
    (hpkg : pkg.errors ≠ []) :
    ∀ (l1 : List GoPackage) (acc : AnalysisResult) (l2 : List GoPackage),
      (analyzePkgs impl acc (l1 ++ pkg :: l2)).1 =
        (analyzePkgs impl acc (l1 ++ l2)).1 ∧
      ∀ e ∈ pkg.errors, e ∈ (analyzePkgs impl acc (l1 ++ pkg :: l2)).2 := by
  intro l1
  induction l1 with
  | nil =>
      intro acc l2
      have hne : pkg.errors.isEmpty = false := by
        cases h : pkg.errors with
        | nil => exact absurd h hpkg
        | cons e es => rfl
      simp only [List.nil_append, analyzePkgs, hne, Bool.false_eq_true,
        if_false]
      exact ⟨by trivial, fun e he => List.mem_append_left _ he⟩
  | cons q l1 ih =>
      intro acc l2
      by_cases hq : q.errors.isEmpty = true
      · simp only [List.cons_append, analyzePkgs, hq, if_true]
        exact ih _ l2
      · simp only [List.cons_append, analyzePkgs, hq, if_false]
        refine ⟨(ih acc l2).1, fun e he => List.mem_append_right _ ((ih acc l2).2 e he)⟩

/-- `processDecl` only adds interfaces with at least one method. -/
theorem processDecl_interfaces_nonempty (impl : String → String → Bool)
    (acc : AnalysisResult) (d : GoDecl)
    (h : ∀ i ∈ acc.interfaces, i.methods ≠ []) :
    ∀ i ∈ (processDecl impl acc d).interfaces, i.methods ≠ [] := by
  cases d with
  | ifaceD iface =>
      by_cases hn : iface.methods.length > 0
      · simp only [processDecl, hn, if_true]
        intro i hi
        rcases List.mem_append.mp hi with hi' | hi'
        · exact h i hi'
        · rw [List.mem_singleton] at hi'
          subst hi'
          exact List.length_pos.mp hn
      · simp only [processDecl, hn, if_false]
        exact h
  | structD s => exact h

/-- Folding `processDecl` over a scope preserves interface nonemptiness. -/
theorem foldl_processDecl_interfaces_nonempty (impl : String → String → Bool) :
    ∀ (decls : List GoDecl) (acc : AnalysisResult),
      (∀ i ∈ acc.interfaces, i.methods ≠ []) →
      ∀ i ∈ (decls.foldl (processDecl impl) acc).interfaces, i.methods ≠ [] := by
  intro decls
  induction decls with
  | nil => intro acc h; exact h
  | cons d ds ih =>
      intro acc h
      exact ih (processDecl impl acc d)
        (processDecl_interfaces_nonempty impl acc d h)

/-- The package loop preserves interface nonemptiness. -/
theorem analyzePkgs_interfaces_nonempty (impl : String → String → Bool) :
    ∀ (pkgs : List GoPackage) (acc : AnalysisResult),
      (∀ i ∈ acc.interfaces, i.methods ≠ []) →
      ∀ i ∈ (analyzePkgs impl acc pkgs).1.interfaces, i.methods ≠ [] := by
  intro pkgs
  induction pkgs with
  | nil => intro acc h; exact h
  | cons pkg rest ih =>
      intro acc h
      by_cases hq : pkg.errors.isEmpty = true
      · simp only [analyzePkgs, hq, if_true]
        exact ih _ (foldl_processDecl_interfaces_nonempty impl pkg.decls acc h)
      · simp only [analyzePkgs, hq, if_false]
        exact ih acc h

/-! ## Claim theorems -/

/-- C1: the Go `analyze` resolves each struct only against the
interfaces collected **so far**, so the recorded relation depends on the
enumeration order of struct and interface: with the oracle asserting
that `Circle` satisfies `Shape`, enumerating `Circle` before `Shape`
records no implementation while the opposite order records one. -/
theorem analyze_order_dependent :
    (analyze circleShapeOracle
        [⟨[], [.structD circleDecl, .ifaceD shapeIface]⟩]).1.structs.map
      (fun s => s.implementedInterfaces) = [[]] ∧
    (analyze circleShapeOracle
        [⟨[], [.ifaceD shapeIface, .structD circleDecl]⟩]).1.structs.map
      (fun s => s.implementedInterfaces) = [[⟨"Shape", shapePos⟩]] := by
  decide

/-- C2: the TS resolver of `analyzeWorkspace` is not idempotent: it
resets `implementedInterfaces` but appends to `implementedFrom`, so a
second run over the same result duplicates the `Shape.Area` entry. -/
theorem resolveResult_not_idempotent :
    resolveResult (resolveResult sampleResult) ≠ resolveResult sampleResult ∧
    (resolveResult sampleResult).structs.map
      (fun s => s.methods.map (fun m => m.implementedFrom)) =
      [[[⟨"Shape.Area", shapePos⟩]]] ∧
    (resolveResult (resolveResult sampleResult)).structs.map
      (fun s => s.methods.map (fun m => m.implementedFrom)) =
      [[[⟨"Shape.Area", shapePos⟩, ⟨"Shape.Area", shapePos⟩]]] := by
  decide

/-- C5: on success the Go resolver appends
`Declaration{iface.Name + "." + method.Name, ifaceMethod.Position}` (the
interface **method**'s position), but the TS resolver appends the
declaration with `iface.position` — the interface's own position, which
differs from the method's position in the sample corpus. -/
theorem implementedFrom_position_mismatch :
    (resolveResult sampleResult).structs.map
      (fun s => s.methods.map (fun m => m.implementedFrom)) =
      [[[⟨"Shape.Area", shapePos⟩]]] ∧
    (analyze circleShapeOracle
        [⟨[], [.ifaceD shapeIface, .structD circleDecl]⟩]).1.structs.map
      (fun s => s.methods.map (fun m => m.implementedFrom)) =
      [[[⟨"Shape.Area", areaIfacePos⟩]]] ∧
    areaIfaceMethod.position = areaIfacePos ∧
    shapePos ≠ areaIfacePos := by
  decide

/-- C6: the canonical method list built by `processStruct` carries no
two methods of the same name, and on the spec's example — value-receiver
`Name() -> string` with pointer-receiver `{Name() -> string,
SetName(n: string) -> void}` — it is exactly `[Name(value-receiver
record), SetName]`. -/
theorem methodSet_nodup_names :
    (∀ valueMethods ptrMethods : List MethodInfo,
      ((processMethodSet (processMethodSet [] valueMethods) ptrMethods).map
        (fun m => m.name)).Nodup) ∧
    processMethodSet (processMethodSet [] [nameValueMethod])
      [namePtrMethod, setNameMethod] = [nameValueMethod, setNameMethod] := by
  constructor
  · intro valueMethods ptrMethods
    exact nodup_names_foldl_addMethod ptrMethods _
      (nodup_names_foldl_addMethod valueMethods [] (by simp))
  · decide

/-- Witness for C6 at the spec's method-merge example. -/
theorem methodSet_nodup_names_witness :
    ((processMethodSet (processMethodSet [] [nameValueMethod])
      [namePtrMethod, setNameMethod]).map (fun m => m.name)).Nodup :=
  methodSet_nodup_names.1 [nameValueMethod] [namePtrMethod, setNameMethod]

/-- C7: a package with type-checking errors is skipped by `analyze`: the
returned `AnalysisResult` is the one of the corpus without that package,
the package's errors all appear among the logged diagnostics, and the
run still returns a result rather than failing. -/
theorem analyze_skips_erroring_package (impl : String → String → Bool)
    (l1 l2 : List GoPackage) (pkg : GoPackage) (hpkg : pkg.errors ≠ []) :
    (analyze impl (l1 ++ pkg :: l2)).1 = (analyze impl (l1 ++ l2)).1 ∧
    ∀ e ∈ pkg.errors, e ∈ (analyze impl (l1 ++ pkg :: l2)).2 :=
  analyzePkgs_skip impl pkg hpkg l1 ⟨[], []⟩ l2

/-- Witness for C7: a corpus of one erroring and one healthy package. -/
theorem analyze_skips_erroring_package_witness :
    badPkg.errors ≠ [] ∧
    ((analyze implNone ([badPkg] ++ badPkg :: [goodPkg])).1 =
        (analyze implNone ([badPkg] ++ [goodPkg])).1 ∧
      ∀ e ∈ badPkg.errors,
        e ∈ (analyze implNone ([badPkg] ++ badPkg :: [goodPkg])).2) :=
  ⟨by decide, analyze_skips_erroring_package implNone [badPkg] [goodPkg] badPkg
    (by decide)⟩

/-- C8: when the parsed analyzer output lacks an `interfaces` or
`structs` array (absent field or non-array value), `analyzeWorkspace`
rejects it with the descriptive validation error and produces no
result. -/
theorem analyzeOutput_rejects_malformed (r : RawAnalysisResult)
    (h : isArrayField r.interfaces = false ∨ isArrayField r.structs = false) :
    analyzeOutput r =
      .error "Invalid analyzer output: missing interfaces or structs arrays" := by
  rcases r with ⟨fi, fs⟩
  cases fi <;> cases fs <;> simp_all [analyzeOutput, isArrayField]

/-- Witness for C8: output whose `interfaces` field is absent. -/
theorem analyzeOutput_rejects_malformed_witness :
    isArrayField (RawAnalysisResult.mk .missing (.array [])).interfaces =
        false ∧
    analyzeOutput (RawAnalysisResult.mk .missing (.array [])) =
      .error "Invalid analyzer output: missing interfaces or structs arrays" :=
  ⟨rfl, analyzeOutput_rejects_malformed _ (Or.inl rfl)⟩

/-- C9: every interface recorded by the Go `analyze` has at least one
method; the empty interface is never recorded
(`t.NumMethods() > 0` guard). -/
theorem analyze_interfaces_nonempty (impl : String → String → Bool)
    (pkgs : List GoPackage) (i : InterfaceInfo)
    (hi : i ∈ (analyze impl pkgs).1.interfaces) : i.methods ≠ [] :=
  analyzePkgs_interfaces_nonempty impl pkgs ⟨[], []⟩ (by simp) i hi

/-- Witness for C9: `Shape` as recorded from the sample corpus. -/
theorem analyze_interfaces_nonempty_witness :
    shapeIface ∈ (analyze implNone [goodPkg]).1.interfaces ∧
    shapeIface.methods ≠ [] :=
  ⟨by decide, analyze_interfaces_nonempty implNone [goodPkg] shapeIface
    (by decide)⟩

/-- C10: every path stored by `makeRelativePath` is the input with
backslashes turned into forward slashes and, when that path has more
than two slash-separated components, exactly its last three components
joined by `/`, otherwise the converted path unchanged; consequently the
stored path always has at most three slash-separated components. -/
theorem makeRelativePath_spec (path : List Char) :
    makeRelativePath path =
      (if ((toSlash path).splitOn '/').length > 2 then
        ['/'].intercalate (((toSlash path).splitOn '/').drop
          (((toSlash path).splitOn '/').length - 3))
      else toSlash path) ∧
    ((makeRelativePath path).splitOn '/').length ≤ 3 := by
  refine ⟨rfl, ?_⟩
  by_cases h : ((toSlash path).splitOn '/').length > 2
  · have hdl : (((toSlash path).splitOn '/').drop
        (((toSlash path).splitOn '/').length - 3)).length = 3 := by
      rw [List.length_drop]; omega
    have hne : ((toSlash path).splitOn '/').drop
        (((toSlash path).splitOn '/').length - 3) ≠ [] := by
      intro h0
      rw [h0] at hdl
      simp at hdl
    have hx : ∀ l ∈ ((toSlash path).splitOn '/').drop
        (((toSlash path).splitOn '/').length - 3), '/' ∉ l := by
      intro l hl
      exact not_mem_of_mem_splitOn '/' (toSlash path) l
        (List.drop_subset _ _ hl)
    simp only [makeRelativePath, h, if_true]
    rw [List.splitOn_intercalate _ '/' hx hne, hdl]
  · simp only [makeRelativePath, h, if_false]
    omega

/-- Witness for C10 at a four-component Windows-style path. -/
theorem makeRelativePath_spec_witness :
    makeRelativePath "C:\\proj\\internal\\repo\\file.go".data =
      (if ((toSlash "C:\\proj\\internal\\repo\\file.go".data).splitOn
            '/').length > 2 then
        ['/'].intercalate
          (((toSlash "C:\\proj\\internal\\repo\\file.go".data).splitOn
              '/').drop
            (((toSlash "C:\\proj\\internal\\repo\\file.go".data).splitOn
                '/').length - 3))
      else toSlash "C:\\proj\\internal\\repo\\file.go".data) ∧
    ((makeRelativePath "C:\\proj\\internal\\repo\\file.go".data).splitOn
      '/').length ≤ 3 :=
  makeRelativePath_spec "C:\\proj\\internal\\repo\\file.go".data

/-- C3: `methodsMatch(candidate, target)` returns true iff the names
agree, the parameter and return counts agree, and at every parameter and
return position the candidate's rendered type string equals the
target's, unless the target's string there is exactly one upper-case
ASCII letter, which matches anything; moreover `Get(key: string) -> int`
matches `Get(key: K) -> V`, while `Get(key: int) -> int` does not match
`Get(key: string) -> int`. -/
theorem methodsMatch_spec :
    (∀ c t : MethodInfo, methodsMatch c t = true ↔
      (c.name = t.name ∧
       c.parameters.length = t.parameters.length ∧
       c.returnTypes.length = t.returnTypes.length ∧
       (∀ pq ∈ c.parameters.zip t.parameters,
         (∃ ch, pq.2.type.data = [ch] ∧ 'A' ≤ ch ∧ ch ≤ 'Z') ∨
           pq.1.type = pq.2.type) ∧
       (∀ pq ∈ c.returnTypes.zip t.returnTypes,
         (∃ ch, pq.2.data = [ch] ∧ 'A' ≤ ch ∧ ch ≤ 'Z') ∨ pq.1 = pq.2))) ∧
    methodsMatch getStringInt getKV = true ∧
    methodsMatch getIntInt getStringIntIface = false := by
  refine ⟨?_, by decide, by decide⟩
  intro c t
  unfold methodsMatch
  simp only [Bool.and_eq_true, beq_iff_eq, List.all_eq_true, Bool.or_eq_true,
    isTypeParam_iff]
  tauto

/-- Witness for C3 at the concrete wildcard example. -/
theorem methodsMatch_spec_witness :
    methodsMatch getStringInt getKV = true ↔
      (getStringInt.name = getKV.name ∧
       getStringInt.parameters.length = getKV.parameters.length ∧
       getStringInt.returnTypes.length = getKV.returnTypes.length ∧
       (∀ pq ∈ getStringInt.parameters.zip getKV.parameters,
         (∃ ch, pq.2.type.data = [ch] ∧ 'A' ≤ ch ∧ ch ≤ 'Z') ∨
           pq.1.type = pq.2.type) ∧
       (∀ pq ∈ getStringInt.returnTypes.zip getKV.returnTypes,
         (∃ ch, pq.2.data = [ch] ∧ 'A' ≤ ch ∧ ch ≤ 'Z') ∨ pq.1 = pq.2)) :=
  methodsMatch_spec.1 getStringInt getKV

/-- C4: the resolver judges that a struct implements an interface iff
every interface method has some `methodsMatch`-compatible method in the
struct's canonical method list, and the candidate returned by the search
is the earliest-added struct method that matches. -/
theorem implementsInterface_spec :
    (∀ (s : StructInfo) (i : InterfaceInfo), implementsInterface s i = true ↔
      ∀ M ∈ i.methods, ∃ m ∈ s.methods, methodsMatch m M = true) ∧
    (∀ (s : StructInfo) (M m : MethodInfo),
      s.methods.find? (fun x => methodsMatch x M) = some m →
        methodsMatch m M = true ∧
        ∃ l1 l2, s.methods = l1 ++ m :: l2 ∧
          ∀ x ∈ l1, methodsMatch x M = false) := by
  constructor
  · intro s i
    unfold implementsInterface
    simp [List.all_eq_true, List.find?_isSome]
  · intro s M m h
    exact find?_eq_some_split _ s.methods m h

/-- Witness for C4: `Circle`'s method list against `Shape.Area`, with
the `find?` hypothesis discharged concretely. -/
theorem implementsInterface_spec_witness :
    methodsMatch areaMethod areaIfaceMethod = true ∧
    ∃ l1 l2, circleStruct.methods = l1 ++ areaMethod :: l2 ∧
      ∀ x ∈ l1, methodsMatch x areaIfaceMethod = false :=
  implementsInterface_spec.2 circleStruct areaIfaceMethod areaMethod (by decide)
